import Mathlib

/-!
# Verification of the workforce-scheduler model builder

Shallow embedding of the parts of `workforce_scheduler.py` (and the package
modules `src/constants.py`, `src/helpers.py`, `src/employee.py`,
`src/employees.py`) that the specification claims talk about:

* the candidate-shift enumerator (`Employee.set_employee_shifts` /
  `Employee.get_possible_shifts_for_day`),
* the decision-variable name encoding and the reporter's parser
  (`Scheduler.create_decision_variables` / `Scheduler.get_decision_var_ids`),
* the weekend enumeration and the weekend linearization constraints,
* the consecutive-day-cap constraints, the weekly-hours constraints,
* the preference coefficients and the paired-days-off term of the objective,
* the weights fallback of `Scheduler.__init__`,
* the employee dictionary (`Employees.add` / `Employees.count`).

Python dictionaries keyed by integers are modelled as partial functions
(`Nat → Option _`) or association lists; Python `int` values that are
always nonnegative in the program are modelled as `Nat`, with explicit
`Int` arithmetic where the source can go negative.  Python floats are
modelled as exact rationals (`ℚ`).
-/

/-! ## Constants (src/constants.py) -/

def NUMBER_OF_WORKDAYS : Nat := 7

def MAXIMUM_CONSECUTIVE_WORKDAYS : Nat := 7

def PERIODS_PER_HOUR : Nat := 2

def SHIFT_START_INTERVAL : Nat := 1

def DEFAULT_SHIFT_IN_PERIODS : Nat := 8 * PERIODS_PER_HOUR

def MINIMUM_SHIFT_IN_PERIODS : Nat := 4 * PERIODS_PER_HOUR

def MAXIMUM_SHIFT_IN_PERIODS : Nat := DEFAULT_SHIFT_IN_PERIODS

def DEFAULT_WEEKLY_MAXIMUM_SHIFTS : Nat := 5

def WEEKDAY_FRI : Nat := 4

def WEEKDAY_SAT : Nat := 5

def WEEKDAY_SUN : Nat := 6

/-! ## Flag values (src/helpers.py)

`PropertyFlag` is an `IntFlag`; `auto()` assigns successive powers of two.
`Preference` is an `IntFlag` with explicit values.  Both are modelled by
their numeric values, with `&&&` playing the role of Python's `&`. -/

namespace PropertyFlag

def NONE : Nat := 0

def CAN_OPEN : Nat := 1

def CAN_CLOSE : Nat := 2

def IS_STUDENT : Nat := 4

def IS_IN_SCHOOL : Nat := 8

def HAS_KEYS : Nat := 16

end PropertyFlag

namespace Preference

def NORMAL : Nat := 0

def UNAVAILABLE : Nat := 1

def UNDESIRABLE : Nat := 8

end Preference

/-! ## Contract kinds (src/helpers.py) -/

inductive Contract where
  | FULLTIME
  | PARTTIME
deriving DecidableEq

/-! ## The employee record (src/employee.py)

`preferences` is the dictionary `day_index → (period_index → Preference)`;
a missing key is `none`.  `weekends_single` and `weekends_groups` model the
two keys of `weekends_config`. -/

structure Employee where
  id : Nat
  name : String
  type_of_contract : Contract
  min_hours : Nat
  max_hours : Nat
  max_shifts : Nat
  seniority : ℚ
  special_properties : Nat
  current_workday_streak : Nat
  weekends_single : List Nat
  weekends_groups : List (List Nat)
  preferences : Nat → Nat → Option Nat

/-- Python's `range(start, stop, step)` restricted to nonnegative bounds,
as used by the source (`step ≥ 1` everywhere in the program). -/
def pyRange (start stop step : Nat) : List Nat :=
  (List.range ((stop - start + step - 1) / step)).map (fun i => start + step * i)

theorem pyRange_zero_one (stop : Nat) : pyRange 0 stop 1 = List.range stop := by
  simp [pyRange]

/-- The eligibility test inside `Employee.get_possible_shifts_for_day`:
the shift starting at `i` of length `L` is eligible iff no preference key
`p` with `i ≤ p < i + L` carries the value `Preference.UNAVAILABLE`. -/
def eligible_shift (days_preferences : Nat → Option Nat) (i L : Nat) : Bool :=
  (List.range L).all (fun o => !(days_preferences (i + o) == some Preference.UNAVAILABLE))

/-- `Employee.get_possible_shifts_for_day`: all windows `[i, i+L)` with
`i ∈ range(0, P - L + 1, SHIFT_START_INTERVAL)` that pass the eligibility
test, each rendered as its list of periods (`range(i, i+L)`). -/
def get_possible_shifts_for_day (number_of_periods shift_length : Nat)
    (days_preferences : Nat → Option Nat) : List (List Nat) :=
  (pyRange 0 (number_of_periods + 1 - shift_length) SHIFT_START_INTERVAL).filterMap
    (fun i => if eligible_shift days_preferences i shift_length
              then some (List.range' i shift_length) else none)

/-- The minimum shift length chosen in `Employee.set_employee_shifts`:
`2 * PERIODS_PER_HOUR` when the `IS_IN_SCHOOL` flag is set, the constant
`MINIMUM_SHIFT_IN_PERIODS` otherwise. -/
def minimum_shift_length (e : Employee) : Nat :=
  if e.special_properties &&& PropertyFlag.IS_IN_SCHOOL ≠ 0
  then 2 * PERIODS_PER_HOUR else MINIMUM_SHIFT_IN_PERIODS

/-- `Employee.set_employee_shifts`: for every day of the demand matrix,
concatenate the possible shifts over all lengths
`range(minimum_shift_length, MAXIMUM_SHIFT_IN_PERIODS + 1)`. -/
def set_employee_shifts (e : Employee) (work_site_demands : List (List Nat)) :
    List (List (List Nat)) :=
  (List.range work_site_demands.length).map (fun day_index =>
    ((List.range' (minimum_shift_length e)
        (MAXIMUM_SHIFT_IN_PERIODS + 1 - minimum_shift_length e)).map
      (fun shift_length =>
        get_possible_shifts_for_day (work_site_demands.getD day_index []).length
          shift_length (e.preferences day_index))).flatten)

/-! ## Preference coefficients of the objective
(`Scheduler.create_objective`, first loop)

The source looks up `employee.preferences[day_index][shift_index]` — the
*candidate-shift index* is used as the key of the per-day preference
dictionary (whose keys are period indices everywhere else in the program);
a `KeyError` leaves the factor at 1. -/

def preference_factor (e : Employee) (day_index shift_index : Nat) : Nat :=
  match e.preferences day_index shift_index with
  | none => 1
  | some v => if v &&& Preference.UNDESIRABLE ≠ 0 then Preference.UNDESIRABLE else 1

/-- Objective weights (`DEFAULT_WEIGHTS` dictionary); floats as rationals. -/
structure Weights where
  preference : ℚ
  day_pairs_off : ℚ
  weekends_off : ℚ
  excess_workforce : ℚ
deriving DecidableEq

def DEFAULT_WEIGHTS : Weights :=
  { preference := 1/4, day_pairs_off := 1/4, weekends_off := 1/4, excess_workforce := 1/4 }

/-- `final_preference_factor = self.weights['preference'] * preference_factor`. -/
def final_preference_factor (W : Weights) (e : Employee) (day_index shift_index : Nat) : ℚ :=
  W.preference * (preference_factor e day_index shift_index : ℚ)

/-! ## Decision-variable names and the reporter's parser
(`Scheduler.create_decision_variables`, `Scheduler.get_decision_var_ids`)

Names are modelled as lists of characters, built exactly as the f-strings
of the source build them (decimal rendering of the integer fields). -/

/-- One decimal digit character. -/
def digitChar : Nat → Char
  | 0 => '0'
  | 1 => '1'
  | 2 => '2'
  | 3 => '3'
  | 4 => '4'
  | 5 => '5'
  | 6 => '6'
  | 7 => '7'
  | 8 => '8'
  | _ => '9'

/-- Fuelled decimal rendering (most significant digit first). -/
def natCharsAux : Nat → Nat → List Char
  | 0, _ => []
  | fuel + 1, n =>
    if n < 10 then [digitChar n]
    else natCharsAux fuel (n / 10) ++ [digitChar (n % 10)]

/-- Decimal rendering of a natural number, as Python's f-string renders it. -/
def natChars (n : Nat) : List Char := natCharsAux (n + 1) n

def xName (eid d k : Nat) : List Char :=
  'x' :: natChars eid ++ ':' :: natChars d ++ ':' :: natChars k

def dName (eid d : Nat) : List Char :=
  'd' :: natChars eid ++ ':' :: natChars d

def pName (eid d : Nat) : List Char :=
  'p' :: natChars eid ++ ':' :: natChars d ++ '-' :: natChars (d + 1)

def wName (eid j : Nat) : List Char :=
  'w' :: natChars eid ++ ':' :: natChars j

def yName (d p : Nat) : List Char :=
  'y' :: natChars d ++ ':' :: natChars p

/-- Is `c` a decimal digit? -/
def isDigitCh (c : Char) : Bool := 48 ≤ c.toNat && c.toNat ≤ 57

def digitVal (c : Char) : Nat := c.toNat - 48

/-- The numeric value of a nonempty all-digit string, `none` otherwise;
this is Python's `int()` on an unsigned token (the tokens produced by the
program contain no whitespace and no underscores). -/
def parseNatDigits (cs : List Char) : Option Nat :=
  if cs ≠ [] ∧ cs.all isDigitCh
  then some (cs.foldl (fun a c => 10 * a + digitVal c) 0) else none

/-- Python's `int()` on the tokens occurring here: an optional sign
followed by decimal digits; anything else raises `ValueError` (`none`). -/
def pyIntChars (cs : List Char) : Option Int :=
  match cs with
  | [] => none
  | c :: rest =>
    if c = '-' then (parseNatDigits rest).map (fun n => -(n : Int))
    else if c = '+' then (parseNatDigits rest).map (fun n => (n : Int))
    else (parseNatDigits (c :: rest)).map (fun n => (n : Int))

/-- Python's `str.split(':')`. -/
def splitColon : List Char → List (List Char)
  | [] => [[]]
  | c :: rest =>
    let r := splitColon rest
    if c = ':' then [] :: r
    else
      match r with
      | [] => [[c]]
      | h :: t => (c :: h) :: t

/-- The list comprehension `[int(x) for x in ...]`: any failing `int()`
raises, which aborts the whole comprehension. -/
def intListOfChunks : List (List Char) → Option (List Int)
  | [] => some []
  | s :: rest =>
    match pyIntChars s, intListOfChunks rest with
    | some v, some vs => some (v :: vs)
    | _, _ => none

/-- `Scheduler.get_decision_var_ids`: strip the family tag (the first
character) and parse the `':'`-separated integer fields. -/
def get_decision_var_ids (name : List Char) : Option (List Int) :=
  intListOfChunks (splitColon (name.drop 1))

/-! ## Weekend enumeration (`Scheduler.create_decision_variables`)

A day index `d` is recorded as a weekend endpoint when a pair variable
exists for it (`d + 1 < n`) and `(start_day + d) % 7` is Friday or
Saturday.  The endpoints are then sliced into chunks of two starting from
index 1 when `start_day` is Saturday, from 0 otherwise; each chunk is the
list of underlying day-pair indices stored with one weekend variable. -/

def weekend_indices (start_day n : Nat) : List Nat :=
  (List.range n).filter (fun d =>
    decide (d + 1 < n) &&
      (decide ((start_day + d) % 7 = WEEKDAY_FRI) ||
       decide ((start_day + d) % 7 = WEEKDAY_SAT)))

/-- The slicing `[weekend_indices[i:i+2] for i in range(split_start_idx,
len(weekend_indices), 2)]` with `split_start_idx = 1` iff
`start_day == WEEKDAY_SAT`. -/
def weekends_split (start_day n : Nat) : List (List Nat) :=
  let wi := weekend_indices start_day n
  let split_start_idx := if start_day = WEEKDAY_SAT then 1 else 0
  (pyRange split_start_idx wi.length 2).map (fun i => (wi.drop i).take 2)

/-! ## Weekend linearization constraints (`Scheduler.create_constraints`,
weekend loop)

Constraints are over the weekend variable `w_j` and day-pair variables
`p_i`, identified by their indices.  In the source, the branch for a
single-pair weekend builds `constraint = weekend_variable == pair1_off`
but then executes `self.problem += constraints` — the name `constraints`
is undefined (neither the module nor `from pulp import *` defines it), so
Python raises `NameError` and constraint construction aborts; an empty
chunk would likewise raise (`IndexError` on `day_indices[0]`).  Both are
modelled as `none`. -/

inductive WeekendCon where
  | gePair (j p : Nat)
  | leSumPairs (j p1 p2 : Nat)
deriving DecidableEq

def weekend_pair_constraints : Nat → List (List Nat) → Option (List WeekendCon)
  | _, [] => some []
  | j, day_indices :: rest =>
    if day_indices.length > 1 then
      match weekend_pair_constraints (j + 1) rest with
      | some cs =>
        some ([WeekendCon.gePair j (day_indices.getD 0 0),
               WeekendCon.gePair j (day_indices.getD 1 0),
               WeekendCon.leSumPairs j (day_indices.getD 0 0) (day_indices.getD 1 0)] ++ cs)
      | none => none
    else none

/-! ## Consecutive-day cap (`Scheduler.create_constraints`, streak block)

For every `day_index ≥ streaks_start_index = MAXIMUM_CONSECUTIVE_WORKDAYS
- current_workday_streak` (Python integer arithmetic, hence the `Int`
comparison), emit the window `[max(0, day_index - 7), day_index]`; the
constraint is `Σ d_{e,i} ≥ 1` over the window, i.e. at least one recorded
day off inside the window. -/

def streak_constraint_windows (streak n : Nat) : List (Nat × Nat) :=
  (List.range n).filterMap (fun (day_index : Nat) =>
    if (MAXIMUM_CONSECUTIVE_WORKDAYS : Int) - (streak : Int) ≤ (day_index : Int)
    then some (day_index - MAXIMUM_CONSECUTIVE_WORKDAYS, day_index) else none)

/-- A day-off assignment (`off i = true` iff the binary variable
`d_{e,i}` takes value 1) satisfies the emitted `Σ ≥ 1` constraints iff
every window contains a day off. -/
def satisfies_streak_windows (off : Nat → Bool) (ws : List (Nat × Nat)) : Prop :=
  ∀ w ∈ ws, ∃ i ∈ List.range' w.1 (w.2 + 1 - w.1), off i = true

instance (off : Nat → Bool) (ws : List (Nat × Nat)) :
    Decidable (satisfies_streak_windows off ws) := by
  unfold satisfies_streak_windows; infer_instance

/-! ## Weekly-hours constraints (`Scheduler.create_constraints`, weekly
accumulator)

`employee_weekly_shifts` accumulates `(length, variable)` pairs day by
day; a variable is identified by its `(day_index, shift_index)` pair, so
a term is `(L, d, k)`.  Whenever `day_index % 7 == 6` the accumulated
terms are emitted — one equality when `min_hours == max_hours`, otherwise
the `≥ min_hours` and `≤ max_hours` inequalities — and the accumulator is
reset. -/

inductive HoursCon where
  | eqCon (terms : List (Nat × Nat × Nat)) (rhs : Nat)
  | geCon (terms : List (Nat × Nat × Nat)) (rhs : Nat)
  | leCon (terms : List (Nat × Nat × Nat)) (rhs : Nat)
deriving DecidableEq

/-- The `(length, day, shift_index)` terms contributed by one day. -/
def dayTerms (shifts : List (List (List Nat))) (d : Nat) : List (Nat × Nat × Nat) :=
  (List.range (shifts.getD d []).length).map
    (fun k => (((shifts.getD d []).getD k []).length, d, k))

def weekly_hours_go (minH maxH : Nat) (shifts : List (List (List Nat))) :
    List Nat → List (Nat × Nat × Nat) → List HoursCon
  | [], _ => []
  | d :: rest, acc =>
    let acc2 := acc ++ dayTerms shifts d
    if d % 7 = 6 then
      (if minH = maxH then [HoursCon.eqCon acc2 minH]
       else [HoursCon.geCon acc2 minH, HoursCon.leCon acc2 maxH]) ++
        weekly_hours_go minH maxH shifts rest []
    else weekly_hours_go minH maxH shifts rest acc2

/-- The weekly-hours constraints emitted for one employee. -/
def weekly_hours_constraints (minH maxH : Nat) (shifts : List (List (List Nat))) :
    List HoursCon :=
  weekly_hours_go minH maxH shifts (List.range shifts.length) []

/-- The terms of the 7-day block ending at day `d` (days `d-6 .. d`). -/
def weekTerms (shifts : List (List (List Nat))) (d : Nat) : List (Nat × Nat × Nat) :=
  ((List.range' (d - 6) 7).map (dayTerms shifts)).flatten

/-! ## Paired-days-off term of the objective
(`Scheduler.create_objective`, weekly branch)

On every `day_index % 7 == 6` the source draws `random.choice(range(
day_index - 6, day_index - offset))` with `offset = 0` if `day_index` is
the last day and `offset = 1` otherwise, and appends the single term
`-W.day_pairs_off * p_{e, random_index}`.  The draw is modelled by a
choice function `pick` applied to the candidate list. -/

def pair_reward_indices (n day_index : Nat) : List Nat :=
  let offset := if day_index = n - 1 then 0 else 1
  List.range' (day_index - 6) ((day_index - offset) - (day_index - 6))

def pair_objective_terms (w_dpo : ℚ) (pick : List Nat → Nat) (n : Nat) :
    List (ℚ × Nat) :=
  (List.range n).filterMap (fun day_index =>
    if day_index % 7 = 6
    then some (-w_dpo, pick (pair_reward_indices n day_index)) else none)

/-! ## Weights fallback (`Scheduler.__init__`) -/

/-- `math.isclose` with its default tolerances
(`rel_tol = 1e-9`, `abs_tol = 0.0`), on exact rationals. -/
def isclose (a b : ℚ) : Bool :=
  decide (|a - b| ≤ 1 / 1000000000 * max |a| |b|)

def weights_sum (w : Weights) : ℚ :=
  w.preference + w.day_pairs_off + w.weekends_off + w.excess_workforce

/-- The weights kept by the constructor: the provided dictionary if it is
given and its values sum to (approximately) 1, `DEFAULT_WEIGHTS`
otherwise. -/
def resolve_weights (weights : Option Weights) : Weights :=
  match weights with
  | none => DEFAULT_WEIGHTS
  | some w => if isclose (weights_sum w) 1 then w else DEFAULT_WEIGHTS

/-! ## The employee collection (src/employees.py)

The dictionary is an association list with Python's `dict.__setitem__`
semantics: replace in place when the key exists, append otherwise.
`add` takes either an `Employee` or some other value (`isinstance`
check). -/

inductive PyArg where
  | employee (e : Employee)
  | notAnEmployee

def dictSet : List (Nat × Employee) → Nat → Employee → List (Nat × Employee)
  | [], k, v => [(k, v)]
  | (k0, v0) :: rest, k, v =>
    if k0 = k then (k, v) :: rest else (k0, v0) :: dictSet rest k v

def dictGet : List (Nat × Employee) → Nat → Option Employee
  | [], _ => none
  | (k0, v0) :: rest, k => if k0 = k then some v0 else dictGet rest k

structure Employees where
  collection : List (Nat × Employee)

/-- The number of current employees (`len` of the dictionary). -/
def Employees.count (es : Employees) : Nat := es.collection.length

/-- `Employees.add`: reject non-`Employee` arguments, otherwise store
under the employee's id and report success. -/
def Employees.add (es : Employees) (arg : PyArg) : Bool × Employees :=
  match arg with
  | PyArg.notAnEmployee => (false, es)
  | PyArg.employee e => (true, ⟨dictSet es.collection e.id e⟩)

/-! ## Concrete instances used by the bug-exhibiting theorems -/

/-- An employee whose day-0 preferences mark period 9 UNDESIRABLE (and
nothing else); no special flags, so the minimum shift length is 8. -/
def shiftKeyEmployee : Employee :=
  { id := 1, name := "a", type_of_contract := Contract.FULLTIME,
    min_hours := 76, max_hours := 80, max_shifts := 5, seniority := 0,
    special_properties := 0, current_workday_streak := 0,
    weekends_single := [], weekends_groups := [],
    preferences := fun d p =>
      if d = 0 ∧ p = 9 then some Preference.UNDESIRABLE else none }

/-- A one-day demand matrix with ten periods. -/
def shiftKeyDemands : List (List Nat) := [List.replicate 10 1]

/-- C1.  The coefficient of `x_{e,0,5}` in the objective: candidate shift
5 of day 0 is the window `[0,10)`, which covers period 9, and period 9 is
marked UNDESIRABLE in `e.preferences[0]` — yet `create_objective` keys the
preference lookup by the candidate-shift index (5), finds no entry, and
keeps the factor at 1, so the coefficient is `W.preference * 1`, not the
`W.preference * 8` the claim requires. -/
theorem C1_preference_coefficient_uses_shift_index :
    ((set_employee_shifts shiftKeyEmployee shiftKeyDemands).getD 0 []).getD 5 []
        = List.range' 0 10
      ∧ (9 : Nat) ∈ ((set_employee_shifts shiftKeyEmployee shiftKeyDemands).getD 0 []).getD 5 []
      ∧ shiftKeyEmployee.preferences 0 9 = some Preference.UNDESIRABLE
      ∧ preference_factor shiftKeyEmployee 0 5 = 1
      ∧ final_preference_factor DEFAULT_WEIGHTS shiftKeyEmployee 0 5
          = DEFAULT_WEIGHTS.preference * 1 := by
  refine ⟨by decide, by decide, by decide, by decide, ?_⟩
  have h : preference_factor shiftKeyEmployee 0 5 = 1 := by decide
  rw [final_preference_factor, h]
  norm_num

/-- C2.  A 6-day schedule starting on Monday records the single weekend
endpoint `[4]` (Friday; Saturday has no successor day), a half-weekend.
Reaching the half-weekend branch of `create_constraints` executes
`self.problem += constraints` with `constraints` undefined, so constraint
construction raises `NameError` instead of emitting `w_{e,0} = p_{e,4}`:
the weekend-linearization builder aborts (`none`). -/
theorem C2_half_weekend_branch_raises :
    weekends_split 0 6 = [[4]]
      ∧ weekend_pair_constraints 0 (weekends_split 0 6) = none := by
  constructor <;> decide

/-- C7.  With `start_day = WEEKDAY_SAT` and a 9-day schedule the weekend
endpoints are `[0, 6, 7]`; slicing into pairs from index 1 yields only
`[[6, 7]]`: the very first Sat endpoint (day 0, the first Sat-Sun pair)
is dropped entirely rather than recorded as a single-endpoint
half-weekend, so `w_{e,0}` stores the two pair indices 6 and 7, not the
single first Sat-Sun pair index the claim states. -/
theorem C7_first_half_weekend_dropped :
    weekend_indices 5 9 = [0, 6, 7]
      ∧ weekends_split 5 9 = [[6, 7]]
      ∧ (weekends_split 5 9).getD 0 [] ≠ [0] := by
  refine ⟨by decide, by decide, by decide⟩

/-! ## Lemmas about the name grammar -/

theorem natCharsAux_fuel_irrel (f1 : Nat) :
    ∀ f2 n, n < f1 → n < f2 → natCharsAux f1 n = natCharsAux f2 n := by
  induction f1 with
  | zero => intro f2 n h1; omega
  | succ f ih =>
    intro f2 n h1 h2
    cases f2 with
    | zero => omega
    | succ f2' =>
      by_cases h : n < 10
      · simp [natCharsAux, h]
      · have hd : n / 10 < n := Nat.div_lt_self (by omega) (by omega)
        simp only [natCharsAux, h, if_false]
        rw [ih f2' (n / 10) (by omega) (by omega)]

theorem natChars_unfold (n : Nat) :
    natChars n = if n < 10 then [digitChar n]
                 else natChars (n / 10) ++ [digitChar (n % 10)] := by
  have h1 : natChars n
      = if n < 10 then [digitChar n] else natCharsAux n (n / 10) ++ [digitChar (n % 10)] := rfl
  rw [h1]
  by_cases h : n < 10
  · simp [h]
  · rw [if_neg h, if_neg h, natChars,
      natCharsAux_fuel_irrel n (n / 10 + 1) (n / 10) (by omega) (by omega)]

theorem digitChar_isDigit (m : Nat) (h : m < 10) : isDigitCh (digitChar m) = true := by
  interval_cases m <;> decide

theorem digitChar_val (m : Nat) (h : m < 10) : digitVal (digitChar m) = m := by
  interval_cases m <;> decide

theorem natChars_all_digits (n : Nat) : ∀ c ∈ natChars n, isDigitCh c = true := by
  induction n using Nat.strong_induction_on with
  | _ n ih =>
    intro c hc
    rw [natChars_unfold] at hc
    by_cases h : n < 10
    · simp [h] at hc
      subst hc; exact digitChar_isDigit n h
    · simp [h] at hc
      rcases hc with hc | hc
      · exact ih (n / 10) (Nat.div_lt_self (by omega) (by omega)) c hc
      · subst hc; exact digitChar_isDigit (n % 10) (Nat.mod_lt _ (by omega))

theorem natChars_ne_nil (n : Nat) : natChars n ≠ [] := by
  rw [natChars_unfold]
  by_cases h : n < 10 <;> simp [h]

theorem natChars_foldl (n : Nat) :
    ∀ a, (natChars n).foldl (fun a c => 10 * a + digitVal c) a
      = a * 10 ^ (natChars n).length + n := by
  induction n using Nat.strong_induction_on with
  | _ n ih =>
    intro a
    rw [natChars_unfold]
    by_cases h : n < 10
    · simp [h, digitChar_val n h]
      ring
    · simp only [h, if_false, List.foldl_append, List.length_append, List.foldl_cons,
        List.foldl_nil, List.length_cons, List.length_nil]
    
      rw [ih (n / 10) (Nat.div_lt_self (by omega) (by omega)) a]
      rw [digitChar_val (n % 10) (Nat.mod_lt _ (by omega))]
      have : n = 10 * (n / 10) + n % 10 := (Nat.div_add_mod n 10).symm
      rw [pow_succ]
      ring_nf
      omega

theorem parseNatDigits_natChars (n : Nat) : parseNatDigits (natChars n) = some n := by
  rw [parseNatDigits, if_pos]
  · rw [natChars_foldl n 0]; simp
  · exact ⟨natChars_ne_nil n, List.all_eq_true.mpr (natChars_all_digits n)⟩

theorem pyIntChars_natChars (n : Nat) : pyIntChars (natChars n) = some (n : Int) := by
  rcases hA : natChars n with _ | ⟨c, rest⟩
  · exact absurd hA (natChars_ne_nil n)
  · have hd : isDigitCh c = true := by
      apply natChars_all_digits n; rw [hA]; exact List.mem_cons_self _ _
    have hm : c ≠ '-' := by rintro rfl; simp [isDigitCh] at hd
    have hp : c ≠ '+' := by rintro rfl; simp [isDigitCh] at hd
    rw [pyIntChars, if_neg hm, if_neg hp, ← hA, parseNatDigits_natChars]
    rfl

theorem splitColon_ne_nil (cs : List Char) : splitColon cs ≠ [] := by
  induction cs with
  | nil => simp [splitColon]
  | cons c rest ih =>
    rw [splitColon]
    by_cases h : c = ':'
    · simp [h]
    · simp only [h, if_false]
      rcases hr : splitColon rest with _ | ⟨hd, t⟩
      · exact absurd hr ih
      · simp

theorem splitColon_no_colon (A : List Char) (h : ':' ∉ A) : splitColon A = [A] := by
  induction A with
  | nil => rfl
  | cons c rest ih =>
    have hc : c ≠ ':' := fun hh => h (hh ▸ List.mem_cons_self _ _)
    have hr : ':' ∉ rest := fun hh => h (List.mem_cons_of_mem _ hh)
    rw [splitColon]
    simp only [hc, if_false]
    rw [ih hr]

theorem splitColon_append (A B : List Char) (h : ':' ∉ A) :
    splitColon (A ++ ':' :: B) = A :: splitColon B := by
  induction A with
  | nil => simp [splitColon]
  | cons c rest ih =>
    have hc : c ≠ ':' := fun hh => h (hh ▸ List.mem_cons_self _ _)
    have hr : ':' ∉ rest := fun hh => h (List.mem_cons_of_mem _ hh)
    simp only [List.cons_append]
    rw [splitColon]
    simp only [hc, if_false]
    rw [ih hr]

theorem colon_not_in_natChars (n : Nat) : ':' ∉ natChars n := by
  intro h
  have := natChars_all_digits n ':' h
  simp [isDigitCh] at this

theorem pair_chunk_no_colon (d m : Nat) : ':' ∉ natChars d ++ '-' :: natChars m := by
  intro h
  rcases List.mem_append.mp h with h | h
  · exact colon_not_in_natChars d h
  · rcases List.mem_cons.mp h with h | h
    · exact absurd h (by decide)
    · exact colon_not_in_natChars m h

theorem pyIntChars_pair_chunk (d m : Nat) :
    pyIntChars (natChars d ++ '-' :: natChars m) = none := by
  rcases hA : natChars d with _ | ⟨c, rest⟩
  · exact absurd hA (natChars_ne_nil d)
  · have hdg : isDigitCh c = true := by
      apply natChars_all_digits d; rw [hA]; exact List.mem_cons_self _ _
    have hm : c ≠ '-' := by rintro rfl; simp [isDigitCh] at hdg
    have hp : c ≠ '+' := by rintro rfl; simp [isDigitCh] at hdg
    rw [List.cons_append, pyIntChars, if_neg hm, if_neg hp]
    have hnone : parseNatDigits (c :: (rest ++ '-' :: natChars m)) = none := by
      rw [parseNatDigits, if_neg]
      rintro ⟨-, hall⟩
      have := List.all_eq_true.mp hall '-' (by simp)
      simp [isDigitCh] at this
    rw [hnone]
    rfl

/-- C6 (amended).  Parsing with `get_decision_var_ids` recovers the
integer fields from the names of the `x`, `d`, `w` and `y` variable
families; on the pair family `p{eid}:{d}-{d+1}` the parse fails (`int()`
raises `ValueError` on the token `"{d}-{d+1}"`, which is not split
further), so the claimed round trip does not extend to the `p` family. -/
theorem C6_name_roundtrip (eid d k j p : Nat) :
    get_decision_var_ids (xName eid d k) = some [(eid : Int), (d : Int), (k : Int)]
      ∧ get_decision_var_ids (dName eid d) = some [(eid : Int), (d : Int)]
      ∧ get_decision_var_ids (wName eid j) = some [(eid : Int), (j : Int)]
      ∧ get_decision_var_ids (yName d p) = some [(d : Int), (p : Int)]
      ∧ get_decision_var_ids (pName eid d) = none := by
  refine ⟨?_, ?_, ?_, ?_, ?_⟩
  · show intListOfChunks (splitColon ((xName eid d k).drop 1)) = _
    have hx : xName eid d k
        = 'x' :: (natChars eid ++ ':' :: (natChars d ++ ':' :: natChars k)) := by
      simp [xName]
    rw [hx]
    simp only [List.drop_succ_cons, List.drop_zero]
    rw [splitColon_append _ _ (colon_not_in_natChars eid),
        splitColon_append _ _ (colon_not_in_natChars d),
        splitColon_no_colon _ (colon_not_in_natChars k)]
    simp [intListOfChunks, pyIntChars_natChars]
  · have h1 : get_decision_var_ids (dName eid d)
        = intListOfChunks (splitColon (natChars eid ++ ':' :: natChars d)) := rfl
    rw [h1, splitColon_append _ _ (colon_not_in_natChars eid),
        splitColon_no_colon _ (colon_not_in_natChars d)]
    simp [intListOfChunks, pyIntChars_natChars]
  · have h1 : get_decision_var_ids (wName eid j)
        = intListOfChunks (splitColon (natChars eid ++ ':' :: natChars j)) := rfl
    rw [h1, splitColon_append _ _ (colon_not_in_natChars eid),
        splitColon_no_colon _ (colon_not_in_natChars j)]
    simp [intListOfChunks, pyIntChars_natChars]
  · have h1 : get_decision_var_ids (yName d p)
        = intListOfChunks (splitColon (natChars d ++ ':' :: natChars p)) := rfl
    rw [h1, splitColon_append _ _ (colon_not_in_natChars d),
        splitColon_no_colon _ (colon_not_in_natChars p)]
    simp [intListOfChunks, pyIntChars_natChars]
  · show intListOfChunks (splitColon ((pName eid d).drop 1)) = _
    have hp : pName eid d
        = 'p' :: (natChars eid ++ ':' :: (natChars d ++ '-' :: natChars (d + 1))) := by
      simp [pName]
    rw [hp]
    simp only [List.drop_succ_cons, List.drop_zero]
    rw [splitColon_append _ _ (colon_not_in_natChars eid),
        splitColon_no_colon _ (pair_chunk_no_colon d (d + 1))]
    simp [intListOfChunks, pyIntChars_natChars, pyIntChars_pair_chunk]

/-- C6 (counterexample to the claim as stated).  For the pair family the
claimed round trip fails already at `eid = 1`, `d = 0`: the constructed
name is `p1:0-1` and the parser returns no ids at all (Python raises
`ValueError` on `int("0-1")`), rather than the fields `(1, 0, 1)`. -/
theorem C6_pair_name_does_not_parse :
    pName 1 0 = ['p', '1', ':', '0', '-', '1']
      ∧ get_decision_var_ids (pName 1 0) = none := by
  constructor <;> decide

/-- C3.  For an employee with prior streak `s ≤ 7`, the cap constraints
are emitted exactly for the days `d ≥ 7 - s`, with window
`[max(0, d - 7), d]`; any day-off assignment satisfying them admits no
run of more than 7 consecutive working days counting the inherited
streak; and for `s = 7` the day-0 window is `[0, 0]`, forcing
`d_{e,0} = 1`. -/
theorem C3_consecutive_day_cap (s n : Nat) (off : Nat → Bool) (hs : s ≤ 7)
    (hsat : satisfies_streak_windows off (streak_constraint_windows s n)) :
    (∀ f l, (f, l) ∈ streak_constraint_windows s n ↔ l < n ∧ 7 - s ≤ l ∧ f = l - 7)
      ∧ (∀ a b, b < n → (∀ i, a ≤ i → i ≤ b → off i = false)
          → (b + 1 - a) + (if a = 0 then s else 0) ≤ 7)
      ∧ (s = 7 → 0 < n → off 0 = true) := by
  have hM : MAXIMUM_CONSECUTIVE_WORKDAYS = 7 := rfl
  have hchar : ∀ f l, (f, l) ∈ streak_constraint_windows s n
      ↔ l < n ∧ 7 - s ≤ l ∧ f = l - 7 := by
    intro f l
    simp only [streak_constraint_windows, List.mem_filterMap, List.mem_range, hM]
    constructor
    · rintro ⟨d, hd, hif⟩
      split at hif
      next hc =>
        simp only [Option.some.injEq, Prod.mk.injEq] at hif
        obtain ⟨rfl, rfl⟩ := hif
        refine ⟨hd, by omega, rfl⟩
      next hc => cases hif
    · rintro ⟨hln, hsl, rfl⟩
      refine ⟨l, hln, ?_⟩
      rw [if_pos (by push_cast; omega)]
  refine ⟨hchar, ?_, ?_⟩
  · intro a b hbn hwork
    by_contra hcon
    push_neg at hcon
    have hble : 7 - s ≤ b := by
      by_cases ha : a = 0
      · subst ha; simp at hcon; omega
      · simp only [if_neg ha] at hcon; omega
    obtain ⟨i, him, hio⟩ := hsat _ ((hchar (b - 7) b).mpr ⟨hbn, hble, rfl⟩)
    rw [List.mem_range'_1] at him
    have hai : a ≤ i ∧ i ≤ b := by
      by_cases ha : a = 0
      · subst ha; simp at hcon; omega
      · simp only [if_neg ha] at hcon; omega
    rw [hwork i hai.1 hai.2] at hio
    cases hio
  · intro hs7 hn
    subst hs7
    obtain ⟨i, him, hio⟩ := hsat _ ((hchar 0 0).mpr ⟨hn, by omega, rfl⟩)
    rw [List.mem_range'_1] at him
    have : i = 0 := by omega
    rwa [this] at hio

/-- Witness for C3: a concrete satisfying assignment (every day off) with
prior streak 7 over 2 days; the theorem applies and forces day 0 off. -/
theorem C3_consecutive_day_cap_witness :
    7 ≤ 7
      ∧ satisfies_streak_windows (fun _ => true) (streak_constraint_windows 7 2)
      ∧ (fun _ => true : Nat → Bool) 0 = true :=
  ⟨by decide, by decide,
    (C3_consecutive_day_cap 7 2 (fun _ => true) (by decide)
      (by decide)).2.2 rfl (by decide)⟩

theorem weekly_hours_go_eq (minH maxH : Nat) (shifts : List (List (List Nat))) :
    ∀ (m c : Nat),
      weekly_hours_go minH maxH shifts (List.range' c m)
          (((List.range' (c - c % 7) (c % 7)).map (dayTerms shifts)).flatten)
        = (((List.range' c m).filter (fun d => d % 7 == 6)).map (fun d =>
            if minH = maxH then [HoursCon.eqCon (weekTerms shifts d) minH]
            else [HoursCon.geCon (weekTerms shifts d) minH,
                  HoursCon.leCon (weekTerms shifts d) maxH])).flatten := by
  intro m
  induction m with
  | zero => intro c; simp [weekly_hours_go]
  | succ m ih =>
    intro c
    have hsucc : List.range' c (m + 1) = c :: List.range' (c + 1) m := by
      rw [List.range'_succ]
    have hacc : (((List.range' (c - c % 7) (c % 7)).map (dayTerms shifts)).flatten)
          ++ dayTerms shifts c
        = ((List.range' (c - c % 7) (c % 7 + 1)).map (dayTerms shifts)).flatten := by
      have h1 : List.range' (c - c % 7) (c % 7 + 1)
          = List.range' (c - c % 7) (c % 7) ++ [c] := by
        rw [List.range'_concat]
        congr 2
        omega
      rw [h1, List.map_append, List.flatten_append]
      simp
    rw [hsucc]
    simp only [weekly_hours_go]
    by_cases hc : c % 7 = 6
    · rw [if_pos hc]
      have h0 : (c + 1) % 7 = 0 := by omega
      have ihc := ih (c + 1)
      rw [h0] at ihc
      simp only [Nat.sub_zero, List.range'_zero, List.map_nil, List.flatten_nil] at ihc
      rw [hacc]
      have hterms : ((List.range' (c - c % 7) (c % 7 + 1)).map (dayTerms shifts)).flatten
          = weekTerms shifts c := by
        rw [weekTerms, hc]
      rw [hterms, ihc]
      simp [List.filter_cons, hc]
    · rw [if_neg hc]
      rw [hacc]
      have hinv : List.range' (c - c % 7) (c % 7 + 1)
          = List.range' ((c + 1) - (c + 1) % 7) ((c + 1) % 7) := by
        have h1 : (c + 1) % 7 = c % 7 + 1 := by omega
        have h2 : (c + 1) - (c + 1) % 7 = c - c % 7 := by omega
        rw [h2, h1]
      rw [hinv, ih (c + 1)]
      have hfc : ((c % 7 == 6) : Bool) = false := by simp [hc]
      simp [List.filter_cons, hfc]

/-- C4.  The weekly-hours constraints emitted for one employee are
exactly, for every 7-day block ending at a day `d` with `d % 7 = 6`, a
single equality `Σ L·x = min_hours` over the block's terms when
`min_hours = max_hours`, and otherwise the inequality pair
`Σ L·x ≥ min_hours`, `Σ L·x ≤ max_hours`. -/
theorem C4_weekly_hours_constraints (minH maxH : Nat)
    (shifts : List (List (List Nat))) :
    weekly_hours_constraints minH maxH shifts
      = (((List.range shifts.length).filter (fun d => d % 7 == 6)).map (fun d =>
          if minH = maxH then [HoursCon.eqCon (weekTerms shifts d) minH]
          else [HoursCon.geCon (weekTerms shifts d) minH,
                HoursCon.leCon (weekTerms shifts d) maxH])).flatten := by
  have h := weekly_hours_go_eq minH maxH shifts shifts.length 0
  simp only [Nat.zero_mod, Nat.sub_zero, List.range'_zero, List.map_nil,
    List.flatten_nil] at h
  rw [weekly_hours_constraints, List.range_eq_range']
  exact h

theorem mem_get_possible_shifts (P L : Nat) (prefs : Nat → Option Nat) (w : List Nat) :
    w ∈ get_possible_shifts_for_day P L prefs
      ↔ ∃ s, s + L ≤ P ∧ w = List.range' s L
          ∧ ∀ p, s ≤ p → p < s + L → prefs p ≠ some Preference.UNAVAILABLE := by
  have hstride : SHIFT_START_INTERVAL = 1 := rfl
  rw [get_possible_shifts_for_day, hstride, pyRange_zero_one]
  simp only [List.mem_filterMap, List.mem_range]
  constructor
  · rintro ⟨s, hs, hif⟩
    split at hif
    next helig =>
      simp only [Option.some.injEq] at hif
      subst hif
      refine ⟨s, by omega, rfl, ?_⟩
      intro p hp1 hp2 hcontra
      rw [eligible_shift, List.all_eq_true] at helig
      have := helig (p - s) (by rw [List.mem_range]; omega)
      rw [show s + (p - s) = p from by omega, hcontra] at this
      simp at this
    next => cases hif
  · rintro ⟨s, hsl, rfl, havail⟩
    refine ⟨s, by omega, ?_⟩
    rw [if_pos]
    rw [eligible_shift, List.all_eq_true]
    intro o ho
    rw [List.mem_range] at ho
    have := havail (s + o) (by omega) (by omega)
    simpa using this

theorem minimum_shift_length_le (e : Employee) :
    minimum_shift_length e ≤ MAXIMUM_SHIFT_IN_PERIODS := by
  rw [minimum_shift_length]
  split <;> decide

theorem set_employee_shifts_getD (e : Employee) (demands : List (List Nat))
    (d : Nat) (hd : d < demands.length) :
    (set_employee_shifts e demands).getD d []
      = ((List.range' (minimum_shift_length e)
            (MAXIMUM_SHIFT_IN_PERIODS + 1 - minimum_shift_length e)).map
          (fun L => get_possible_shifts_for_day (demands.getD d []).length L
            (e.preferences d))).flatten := by
  rw [set_employee_shifts]
  have hsome : ((List.range demands.length).map (fun day_index =>
      ((List.range' (minimum_shift_length e)
          (MAXIMUM_SHIFT_IN_PERIODS + 1 - minimum_shift_length e)).map
        (fun shift_length =>
          get_possible_shifts_for_day (demands.getD day_index []).length
            shift_length (e.preferences day_index))).flatten))[d]?
      = some (((List.range' (minimum_shift_length e)
          (MAXIMUM_SHIFT_IN_PERIODS + 1 - minimum_shift_length e)).map
        (fun shift_length =>
          get_possible_shifts_for_day (demands.getD d []).length
            shift_length (e.preferences d))).flatten) := by
    rw [List.getElem?_map, List.getElem?_range hd]
    rfl
  rw [List.getD_eq_getElem?_getD, hsome, Option.getD_some]

/-- C5.  For every day `d` of the demand matrix, the enumerated candidate
shifts of an employee are exactly the windows `[s, s+L)` with
`minimum_shift_length e ≤ L ≤ MAXIMUM_SHIFT_IN_PERIODS`, start `s` a
multiple of `SHIFT_START_INTERVAL` with `s + L ≤ P_d`, and no period of
the window marked UNAVAILABLE; in particular no candidate shift covers an
UNAVAILABLE period. -/
theorem C5_shift_enumeration (e : Employee) (demands : List (List Nat))
    (d : Nat) (hd : d < demands.length) :
    (∀ w, w ∈ (set_employee_shifts e demands).getD d []
        ↔ ∃ s L, w = List.range' s L
            ∧ minimum_shift_length e ≤ L ∧ L ≤ MAXIMUM_SHIFT_IN_PERIODS
            ∧ s % SHIFT_START_INTERVAL = 0
            ∧ s + L ≤ (demands.getD d []).length
            ∧ ∀ p, s ≤ p → p < s + L →
                e.preferences d p ≠ some Preference.UNAVAILABLE)
      ∧ ∀ w ∈ (set_employee_shifts e demands).getD d [], ∀ p ∈ w,
          e.preferences d p ≠ some Preference.UNAVAILABLE := by
  have hmax : MAXIMUM_SHIFT_IN_PERIODS = 16 := rfl
  have hmsl := minimum_shift_length_le e
  have hchar : ∀ w, w ∈ (set_employee_shifts e demands).getD d []
      ↔ ∃ s L, w = List.range' s L
          ∧ minimum_shift_length e ≤ L ∧ L ≤ MAXIMUM_SHIFT_IN_PERIODS
          ∧ s % SHIFT_START_INTERVAL = 0
          ∧ s + L ≤ (demands.getD d []).length
          ∧ ∀ p, s ≤ p → p < s + L →
              e.preferences d p ≠ some Preference.UNAVAILABLE := by
    intro w
    rw [set_employee_shifts_getD e demands d hd]
    simp only [List.mem_flatten, List.mem_map]
    constructor
    · rintro ⟨l, ⟨L, hLmem, rfl⟩, hw⟩
      rw [List.mem_range'_1] at hLmem
      obtain ⟨s, hsl, rfl, havail⟩ := (mem_get_possible_shifts _ _ _ _).mp hw
      exact ⟨s, L, rfl, by omega, by omega, Nat.mod_one s, hsl, havail⟩
    · rintro ⟨s, L, rfl, hminL, hmaxL, -, hsl, havail⟩
      refine ⟨get_possible_shifts_for_day (demands.getD d []).length L
          (e.preferences d), ⟨L, ?_, rfl⟩, ?_⟩
      · rw [List.mem_range'_1]
        omega
      · exact (mem_get_possible_shifts _ _ _ _).mpr ⟨s, hsl, rfl, havail⟩
  refine ⟨hchar, ?_⟩
  intro w hw p hp
  obtain ⟨s, L, rfl, -, -, -, -, havail⟩ := (hchar w).mp hw
  rw [List.mem_range'_1] at hp
  exact havail p hp.1 hp.2

/-- A plain employee (no flags, no preferences) used by witnesses. -/
def plainEmployee : Employee :=
  { id := 2, name := "b", type_of_contract := Contract.PARTTIME,
    min_hours := 30, max_hours := 40, max_shifts := 5, seniority := 0,
    special_properties := 0, current_workday_streak := 0,
    weekends_single := [], weekends_groups := [],
    preferences := fun _ _ => none }

/-- A one-day demand matrix with eight periods, used by witnesses. -/
def oneDayDemands : List (List Nat) := [List.replicate 8 0]

/-- Witness for C5 at a concrete employee, demand matrix and day. -/
theorem C5_shift_enumeration_witness :
    0 < oneDayDemands.length
      ∧ ((∀ w, w ∈ (set_employee_shifts plainEmployee oneDayDemands).getD 0 []
          ↔ ∃ s L, w = List.range' s L
              ∧ minimum_shift_length plainEmployee ≤ L
              ∧ L ≤ MAXIMUM_SHIFT_IN_PERIODS
              ∧ s % SHIFT_START_INTERVAL = 0
              ∧ s + L ≤ (oneDayDemands.getD 0 []).length
              ∧ ∀ p, s ≤ p → p < s + L →
                  plainEmployee.preferences 0 p ≠ some Preference.UNAVAILABLE)
        ∧ ∀ w ∈ (set_employee_shifts plainEmployee oneDayDemands).getD 0 [], ∀ p ∈ w,
            plainEmployee.preferences 0 p ≠ some Preference.UNAVAILABLE) :=
  ⟨by decide, C5_shift_enumeration plainEmployee oneDayDemands 0 (by decide)⟩

theorem filterMap_week_ite (f : Nat → ℚ × Nat) (l : List Nat) :
    l.filterMap (fun d => if d % 7 = 6 then some (f d) else none)
      = (l.filter (fun d => d % 7 == 6)).map f := by
  induction l with
  | nil => rfl
  | cons a l ih =>
    by_cases h : a % 7 = 6
    · simp [List.filter_cons, h, ih]
    · simp [List.filter_cons, h, ih]

/-- C8 (amended).  The objective contains exactly one paired-days-off
reward term per complete 7-day block (at each `d < n` with `d % 7 = 6`),
and the candidate pair indices the random draw is taken from are exactly
`[d-6, d-2]` — or `[d-6, d-1]` when `d` is the last day of the schedule
(`range(day_index - 6, day_index - offset)` with `offset ∈ {1, 0}`). -/
theorem C8_pair_reward_support (wq : ℚ) (pick : List Nat → Nat) (n : Nat) :
    pair_objective_terms wq pick n
        = ((List.range n).filter (fun d => d % 7 == 6)).map
            (fun d => (-wq, pick (pair_reward_indices n d)))
      ∧ ∀ d, d % 7 = 6 → d < n →
          pair_reward_indices n d
            = if d = n - 1 then List.range' (d - 6) 6 else List.range' (d - 6) 5 := by
  constructor
  · rw [pair_objective_terms, filterMap_week_ite]
  · intro d hd6 hdn
    simp only [pair_reward_indices]
    by_cases hlast : d = n - 1
    · rw [if_pos hlast, if_pos hlast]
      congr 1
      omega
    · rw [if_neg hlast, if_neg hlast]
      congr 1
      omega

/-- Witness for C8 at `n = 14`, `d = 6`, the head-of-list choice
function and weight 1/4. -/
theorem C8_pair_reward_support_witness :
    6 % 7 = 6 ∧ 6 < 14
      ∧ pair_objective_terms (1/4 : ℚ) (fun l => l.getD 0 0) 14
          = ((List.range 14).filter (fun d => d % 7 == 6)).map
              (fun d => (-(1/4 : ℚ), (fun l => l.getD 0 0) (pair_reward_indices 14 d)))
      ∧ pair_reward_indices 14 6
          = if 6 = 14 - 1 then List.range' (6 - 6) 6 else List.range' (6 - 6) 5 :=
  ⟨rfl, by decide,
    (C8_pair_reward_support (1/4 : ℚ) (fun l => l.getD 0 0) 14).1,
    (C8_pair_reward_support (1/4 : ℚ) (fun l => l.getD 0 0) 14).2 6 rfl (by decide)⟩

/-- C8 (counterexample to the claim as stated).  For a 14-day schedule
and the block ending at day 6 the draw support is `[0, 1, 2, 3, 4]` —
pair index 5 (the claimed endpoint `d-1`) cannot be produced; for a
7-day schedule (day 6 last) the support is `[0, ..., 5]` — pair index 6
(the claimed endpoint `d`) cannot be produced (it does not even exist:
there are only 6 pair variables). -/
theorem C8_pair_reward_support_counterexample :
    pair_reward_indices 14 6 = [0, 1, 2, 3, 4]
      ∧ (5 : Nat) ∉ pair_reward_indices 14 6
      ∧ pair_reward_indices 7 6 = [0, 1, 2, 3, 4, 5]
      ∧ (6 : Nat) ∉ pair_reward_indices 7 6 := by
  refine ⟨by decide, by decide, by decide, by decide⟩

/-- C9.  The constructor keeps the provided weights exactly when they are
given and `math.isclose(sum, 1)` holds; otherwise (no weights, or a sum
not approximately 1) it falls back to `DEFAULT_WEIGHTS`. -/
theorem C9_weights_fallback :
    resolve_weights none = DEFAULT_WEIGHTS
      ∧ (∀ w, isclose (weights_sum w) 1 = false →
          resolve_weights (some w) = DEFAULT_WEIGHTS)
      ∧ (∀ w, isclose (weights_sum w) 1 = true →
          resolve_weights (some w) = w) := by
  refine ⟨rfl, ?_, ?_⟩
  · intro w h
    simp [resolve_weights, h]
  · intro w h
    simp [resolve_weights, h]

/-- Weights summing to 4, rejected by the closeness test. -/
def badWeights : Weights :=
  { preference := 1, day_pairs_off := 1, weekends_off := 1, excess_workforce := 1 }

theorem badWeights_not_close : isclose (weights_sum badWeights) 1 = false := by
  rw [isclose, decide_eq_false_iff_not]
  rw [weights_sum]
  norm_num [badWeights]

theorem default_weights_close : isclose (weights_sum DEFAULT_WEIGHTS) 1 = true := by
  rw [isclose, decide_eq_true_eq]
  rw [weights_sum]
  norm_num [DEFAULT_WEIGHTS]

/-- Witness for C9: the all-ones weights are replaced by the defaults,
the default weights are kept. -/
theorem C9_weights_fallback_witness :
    isclose (weights_sum badWeights) 1 = false
      ∧ resolve_weights (some badWeights) = DEFAULT_WEIGHTS
      ∧ isclose (weights_sum DEFAULT_WEIGHTS) 1 = true
      ∧ resolve_weights (some DEFAULT_WEIGHTS) = DEFAULT_WEIGHTS :=
  ⟨badWeights_not_close,
    C9_weights_fallback.2.1 badWeights badWeights_not_close,
    default_weights_close,
    C9_weights_fallback.2.2 DEFAULT_WEIGHTS default_weights_close⟩

theorem dictGet_dictSet (l : List (Nat × Employee)) (k : Nat) (v : Employee) :
    dictGet (dictSet l k v) k = some v := by
  induction l with
  | nil => simp [dictSet, dictGet]
  | cons hd rest ih =>
    obtain ⟨k0, v0⟩ := hd
    by_cases h : k0 = k
    · simp [dictSet, dictGet, h]
    · simp [dictSet, dictGet, h, ih]

theorem dictSet_length_of_get (l : List (Nat × Employee)) (k : Nat)
    (v old : Employee) (h : dictGet l k = some old) :
    (dictSet l k v).length = l.length := by
  induction l with
  | nil => cases h
  | cons hd rest ih =>
    obtain ⟨k0, v0⟩ := hd
    by_cases hk : k0 = k
    · simp [dictSet, hk]
    · rw [dictGet, if_neg hk] at h
      simp [dictSet, hk, ih h]

/-- C10.  `Employees.add` returns `False` and leaves the collection
unchanged on a non-`Employee` argument; on an `Employee` it returns
`True` and stores the employee under its id, silently replacing any
existing entry with the same id, so `count()` does not increase and the
previous employee is no longer retrievable. -/
theorem C10_add_replaces_on_duplicate_id (es : Employees) :
    Employees.add es PyArg.notAnEmployee = (false, es)
      ∧ (∀ e, (Employees.add es (PyArg.employee e)).1 = true
          ∧ dictGet (Employees.add es (PyArg.employee e)).2.collection e.id = some e)
      ∧ ∀ e old, dictGet es.collection e.id = some old →
          (Employees.add es (PyArg.employee e)).2.count = es.count := by
  refine ⟨rfl, fun e => ⟨rfl, dictGet_dictSet _ _ _⟩, fun e old h => ?_⟩
  show (dictSet es.collection e.id e).length = es.collection.length
  exact dictSet_length_of_get _ _ _ _ h

/-- A second employee with the same id (1) as `shiftKeyEmployee` but a
different name, used to exhibit silent replacement. -/
def duplicateIdEmployee : Employee :=
  { id := 1, name := "c", type_of_contract := Contract.PARTTIME,
    min_hours := 30, max_hours := 40, max_shifts := 5, seniority := 0,
    special_properties := 0, current_workday_streak := 0,
    weekends_single := [], weekends_groups := [],
    preferences := fun _ _ => none }

/-- Witness for C10 on a one-employee collection and a duplicate id. -/
theorem C10_add_replaces_on_duplicate_id_witness :
    Employees.add ⟨[(1, shiftKeyEmployee)]⟩ PyArg.notAnEmployee
        = (false, (⟨[(1, shiftKeyEmployee)]⟩ : Employees))
      ∧ (Employees.add ⟨[(1, shiftKeyEmployee)]⟩
          (PyArg.employee duplicateIdEmployee)).1 = true
      ∧ dictGet (Employees.add ⟨[(1, shiftKeyEmployee)]⟩
          (PyArg.employee duplicateIdEmployee)).2.collection duplicateIdEmployee.id
        = some duplicateIdEmployee
      ∧ dictGet [(1, shiftKeyEmployee)] duplicateIdEmployee.id = some shiftKeyEmployee
      ∧ (Employees.add ⟨[(1, shiftKeyEmployee)]⟩
          (PyArg.employee duplicateIdEmployee)).2.count
        = (⟨[(1, shiftKeyEmployee)]⟩ : Employees).count :=
  ⟨(C10_add_replaces_on_duplicate_id _).1,
    ((C10_add_replaces_on_duplicate_id _).2.1 duplicateIdEmployee).1,
    ((C10_add_replaces_on_duplicate_id _).2.1 duplicateIdEmployee).2,
    rfl,
    (C10_add_replaces_on_duplicate_id _).2.2 duplicateIdEmployee shiftKeyEmployee rfl⟩
